import Mathlib

/-!
# Verification of the hierarchical state-machine engine
# (`models/state_machine.py`, `util/functions.py`)

Shallow embedding of the state-descriptor catalog, the transition-wiring
algorithm of `StateMachineModel`, the runtime step relation for the built
machine, the observer-hook resolver, the ancestor-path walk, and the
bidirectional state index.  Definitions are translated from the Python
source; spec-side definitions (used for refinement statements) are named
with a `spec` prefix.
-/

namespace StateMachine

/-- A live state node is identified by its path of state names from the top
level of the hierarchy down to the node (`["EXECUTE", "IDLE"]` is the `IDLE`
substate of the top-level `EXECUTE` state).  Paths play the role of the
distinct `QState` objects / `Enum` members of the source. -/
abbrev Path := List String

/-- `TransitionsDescriptor.next_state : Union[str, tuple, None]`
(state_machine.py:14).  The three Python shapes of the field. -/
inductive PyNext where
  | pynone : PyNext
  | str (s : String) : PyNext
  | tup (names : List String) : PyNext
deriving DecidableEq, Repr

/-- `TransitionsDescriptor` (state_machine.py:12-16): `next_state`,
`prev_state` (default `None`), `optional` (default `[]`). -/
structure TD where
  next_state : PyNext
  prev_state : Option String := none
  optional : List String := []
deriving DecidableEq, Repr

/-- `StateDescriptor` (state_machine.py:19-26): `name`, `transitions`
(default `None`), `sub_states` (default `None`; an absent or empty
sub-catalog are both falsy in `_create_and_assign_state`, so both are
modelled as `[]`), `initial` and `final` flags.  The `parent` field is not
stored here: it is written during construction and is modelled by the
`parentPath` of the collected entries. -/
inductive SD where
  | mk (name : String) (transitions : Option TD) (sub_states : List SD)
      (initial : Bool) (final : Bool) : SD

def SD.name : SD → String
  | .mk n _ _ _ _ => n

def SD.transitions : SD → Option TD
  | .mk _ t _ _ _ => t

def SD.sub_states : SD → List SD
  | .mk _ _ s _ _ => s

def SD.initial : SD → Bool
  | .mk _ _ _ i _ => i

def SD.final : SD → Bool
  | .mk _ _ _ _ f => f

/-- The per-state data needed for transition wiring: name, transitions
descriptor and finality (`QFinalState` is created exactly for descriptors
with `final=True`, state_machine.py:239-240). -/
structure Core where
  name : String
  transitions : Option TD
  final : Bool
deriving DecidableEq, Repr

def SD.core (s : SD) : Core :=
  { name := s.name, transitions := s.transitions, final := s.final }

/-- One registered state as seen by `_add_transitions`: the state itself,
the path of its parent (empty for top-level states) and its resolution
scope.  Per `_target_state_name_to_enum` (state_machine.py:393-409) the
scope of a substate is its parent's `sub_states` enum and the scope of a
top-level state is the top-level states enum, i.e. in both cases the
state's sibling list. -/
structure Entry where
  parentPath : Path
  core : Core
  scope : List Core
deriving DecidableEq, Repr

def Entry.selfPath (e : Entry) : Path := e.parentPath ++ [e.core.name]

mutual

/-- `_create_and_assign_state` (state_machine.py:216-222): register the
state, then recursively register its substates (preorder).  This yields the
iteration order of `self._states.items()` in `_add_transitions`. -/
def collectOne (parentPath : Path) (scope : List Core) : SD → List Entry
  | .mk n t subs _ f =>
    { parentPath := parentPath, core := ⟨n, t, f⟩, scope := scope } ::
      collectEntries (parentPath ++ [n]) (subs.map SD.core) subs
  termination_by structural s => s

def collectEntries (parentPath : Path) (scope : List Core) : List SD → List Entry
  | [] => []
  | s :: rest => collectOne parentPath scope s ++ collectEntries parentPath scope rest
  termination_by structural l => l

end

/-- All registered states of a catalog, in registration order, each with its
resolution scope. -/
def collect (c : List SD) : List Entry :=
  collectEntries [] (c.map SD.core) c

/-- Python errors raised during construction, carrying the message text. -/
inductive PyErr where
  | keyError (name : String) : PyErr
  | attributeError (msg : String) : PyErr
  | typeError (msg : String) : PyErr
deriving DecidableEq, Repr

/-- Enum member lookup `scope[name]` as used by `_target_state_name_to_enum`
(`self._states_enum[target_name]` / `parent_state.sub_states[target_name]`).
Looking up `None` raises `KeyError`; Python `Enum` member names are
non-empty identifiers, so looking up the empty string also always raises
`KeyError`. -/
def enumLookup (scope : List Core) : Option String → Option Core
  | none => none
  | some s => if s == "" then none else scope.find? (fun c => c.name == s)

/-- `_target_state_name_to_enum` (state_machine.py:393-409), as an
`Except`: a failed member lookup is a `KeyError` naming the target. -/
def targetStateNameToEnum (e : Entry) (tn : Option String) : Except PyErr Core :=
  match enumLookup e.scope tn with
  | some c => .ok c
  | none => .error (.keyError (tn.getD "None"))

/-- Python `str.lower()` on the ASCII state names, character by character
(kept kernel-computable). -/
def pyLower (s : String) : String := String.mk (s.data.map Char.toLower)

/-- `_signal_format` (state_machine.py:411-419). -/
def signalFormat (state_name : String) : String := "to_" ++ pyLower state_name

/-- The `to_*` signal attributes present on `StateMachineModel`
(state_machine.py:95-100: `to_previous`, `to_next`, `to_option`,
`to_error`, `to_stopping`; `skip` does not start with `to_` and no other
attribute of the class or of `QObject` does either), as tested by
`hasattr(self, self._signal_format(name))`. -/
def hasSignalAttr (s : String) : Bool :=
  s ∈ ["to_previous", "to_next", "to_option", "to_error", "to_stopping"]

/-- A wired transition.  `signal` is the engine signal the transition
listens on; `guard` is the `option` triple `(num, option_state_name,
option_state_enum)` stored by `OptionTransition` (state_machine.py:76-85),
present exactly on the edges added via `_add_option_transitions`. -/
structure Edge where
  src : Path
  signal : String
  guard : Option (Nat × String × Path) := none
  tgt : Path
deriving DecidableEq, Repr

/-- `_add_next_transition` (state_machine.py:335-343).  The caller
(`_add_transitions`) only reaches this with a non-tuple `next_state`; a
falsy name (`None` or `""`) returns without adding; the target is resolved
(possible `KeyError`) even when the source is final, and the edge is added
only for non-final sources. -/
def addNextTransition (e : Entry) (td : TD) : Except PyErr (List Edge) :=
  match td.next_state with
  | .pynone => .ok []
  | .tup _ => .ok []
  | .str s =>
    if s == "" then .ok []
    else do
      let t ← targetStateNameToEnum e (some s)
      if e.core.final then pure []
      else pure [{ src := e.selfPath, signal := "to_next", tgt := e.parentPath ++ [t.name] }]

/-- `_add_prev_transition` (state_machine.py:345-365).  With no explicit
target name the raw `next_state` value is used (`None` then fails to
resolve).  A final target gets no reverse edge.  A target without a
transitions descriptor behaves as `TransitionsDescriptor(None)`.  A
`prev_state` equal to the source's member name or to the target name
suppresses the reverse edge; any other `prev_state` is resolved (possible
`KeyError`) and the reverse edge is redirected to it. -/
def addPrevTransition (e : Entry) (td : TD) (tnArg : Option String) : Except PyErr (List Edge) := do
  let tn : Option String :=
    match tnArg with
    | some s => some s
    | none =>
      match td.next_state with
      | .str s => some s
      | .pynone => none
      | .tup _ => none
  let t ← targetStateNameToEnum e tn
  if t.final then pure []
  else
    let tt := t.transitions.getD { next_state := .pynone }
    match tt.prev_state with
    | none => pure [{ src := e.parentPath ++ [t.name], signal := "to_previous", tgt := e.selfPath }]
    | some p =>
      if p != e.core.name && p != tn.getD "" then do
        let pv ← targetStateNameToEnum e (some p)
        pure [{ src := e.parentPath ++ [t.name], signal := "to_previous",
                tgt := e.parentPath ++ [pv.name] }]
      else pure []

/-- `_add_option_transitions` (state_machine.py:367-376): resolve the
option name (possible `KeyError`), then, for non-final sources, add the
unconditional `to_next` edge for position 0 followed by the guarded
`OptionTransition` on `to_option`. -/
def addOptionTransitions (e : Entry) (num : Nat) (option_state_name : String) :
    Except PyErr (List Edge) := do
  let t ← targetStateNameToEnum e (some option_state_name)
  if e.core.final then pure []
  else
    let tgt := e.parentPath ++ [t.name]
    let nextPart : List Edge :=
      if num == 0 then [{ src := e.selfPath, signal := "to_next", tgt := tgt }] else []
    pure (nextPart ++
      [{ src := e.selfPath, signal := "to_option", guard := some (num, option_state_name, tgt),
         tgt := tgt }])

/-- The loop body of `_add_optional_transitions` (state_machine.py:381-391):
for each optional target, first the `hasattr` check on the engine's signal
attribute (raising `AttributeError` if absent), then resolution of the
target name (possible `KeyError`). -/
def optionalLoop (e : Entry) : List String → Except PyErr (List Edge)
  | [] => .ok []
  | n :: rest =>
    if !hasSignalAttr (signalFormat n) then
      .error (.attributeError (signalFormat n))
    else do
      let t ← targetStateNameToEnum e (some n)
      let es ← optionalLoop e rest
      pure ({ src := e.selfPath, signal := signalFormat n, tgt := e.parentPath ++ [t.name] } :: es)

/-- `_add_optional_transitions` (state_machine.py:378-391): final sources
are skipped entirely (their optional list is neither signal-checked nor
resolved). -/
def addOptionalTransitions (e : Entry) (td : TD) : Except PyErr (List Edge) :=
  if e.core.final then .ok []
  else optionalLoop e td.optional

/-- The tuple branch of `_add_transitions` (state_machine.py:324-327):
`for num, option_state_name in enumerate(next_state)`, each iteration
calling `_add_option_transitions` then `_add_prev_transition`. -/
def tupleLoop (e : Entry) (td : TD) (num : Nat) : List String → Except PyErr (List Edge)
  | [] => .ok []
  | n :: rest => do
    let a ← addOptionTransitions e num n
    let b ← addPrevTransition e td (some n)
    let c ← tupleLoop e td (num + 1) rest
    pure (a ++ b ++ c)

/-- The body of `_add_transitions` for one registered state
(state_machine.py:318-333): states without a transitions descriptor are
skipped; otherwise the tuple or single branch runs, followed by
`_add_optional_transitions`. -/
def wireState (e : Entry) : Except PyErr (List Edge) :=
  match e.core.transitions with
  | none => .ok []
  | some td => do
    let part1 ←
      match td.next_state with
      | .tup names => tupleLoop e td 0 names
      | _ => do
        let a ← addNextTransition e td
        let b ← addPrevTransition e td none
        pure (a ++ b)
    let part2 ← addOptionalTransitions e td
    pure (part1 ++ part2)

/-- `_add_transitions` (state_machine.py:314-333): wire every registered
state in registration order, accumulating the added transitions. -/
def buildLoop : List Entry → Except PyErr (List Edge)
  | [] => .ok []
  | e :: rest => do
    let a ← wireState e
    let b ← buildLoop rest
    pure (a ++ b)

/-- The full transition-wiring pass of construction: collect all states of
the catalog, then wire each one. -/
def build (c : List SD) : Except PyErr (List Edge) :=
  buildLoop (collect c)

/-- The top-level initial state: `machine.setInitialState(state)` is called
for every top-level descriptor with `initial=True` (state_machine.py:247-248),
each call overriding the previous one, so the last marked state wins. -/
def initialState (c : List SD) : Option String :=
  c.foldl (fun acc s => if s.initial then some s.name else acc) none

/-- A Python value as it can appear as the payload of the `to_option`
signal or as a component of the `OptionTransition.option` triple: an int,
a string, an `Enum` member (identified by its path), or a tuple. -/
inductive PyVal where
  | int (n : Int) : PyVal
  | str (s : String) : PyVal
  | enumRef (p : Path) : PyVal
  | tup (vs : List PyVal) : PyVal

mutual

/-- Python `==` on the payload values: ints, strings and `Enum` members
compare within their own kind (an `Enum` member equals only itself), tuples
compare elementwise, and values of different kinds are unequal. -/
def pyEq : PyVal → PyVal → Bool
  | .int a, .int b => a == b
  | .str a, .str b => a == b
  | .enumRef a, .enumRef b => a == b
  | .tup a, .tup b => pyEqList a b
  | _, _ => false

def pyEqList : List PyVal → List PyVal → Bool
  | [], [] => true
  | a :: as', b :: bs' => pyEq a b && pyEqList as' bs'
  | _, _ => false

end

/-- Python `x in (num, name, enum)`: membership of the payload in the
stored `option` triple, i.e. equality with one of its three components
(`OptionTransition.eventTest`, state_machine.py:82-85). -/
def pyIn (p : PyVal) (g : Nat × String × Path) : Bool :=
  pyEq p (.int g.1) || pyEq p (.str g.2.1) || pyEq p (.enumRef g.2.2)

/-- An emitted engine signal: its attribute name and its payload (only
`to_option` carries one). -/
structure Trig where
  signal : String
  payload : Option PyVal := none

/-- Whether a wired transition fires on an emitted signal: the signal must
be the one the transition was added for (`QSignalTransition.eventTest`),
and a guarded `OptionTransition` additionally requires
`e.arguments()[0] in self.option` (state_machine.py:82-85). -/
def edgeMatches (ed : Edge) (t : Trig) : Bool :=
  ed.signal == t.signal &&
    match ed.guard with
    | none => true
    | some g =>
      match t.payload with
      | some p => pyIn p g
      | none => false

/-- One dispatch step of the running machine on an emitted signal: among
the transitions leaving the active state, in the order they were added, the
first whose event test passes fires; if none does, the event is ignored and
the machine stays put.  Entering a top-level `QFinalState` finishes the
machine; since no transition ever leaves a final state, staying put is also
faithful there. -/
def stepEdges (es : List Edge) (cur : Path) (t : Trig) : Path :=
  match es.find? (fun ed => ed.src == cur && edgeMatches ed t) with
  | some ed => ed.tgt
  | none => cur

/-- Run a sequence of emitted signals from a given active state. -/
def runEdges (es : List Edge) (cur : Path) (ts : List Trig) : Path :=
  ts.foldl (stepEdges es) cur

/-- Emitting `to_next` (no payload). -/
def trigNext : Trig := { signal := "to_next" }

/-- Emitting `to_previous` (no payload). -/
def trigPrev : Trig := { signal := "to_previous" }

/-- Emitting `to_error` (no payload). -/
def trigError : Trig := { signal := "to_error" }

/-- Emitting `to_option` with a payload. -/
def trigOption (p : PyVal) : Trig := { signal := "to_option", payload := some p }

/-- A flat (sub-catalog-free) state descriptor. -/
def flatSD (name : String) (transitions : Option TD) (initial : Bool) (final : Bool) : SD :=
  .mk name transitions [] initial final

/-- The `StandardStates` catalog (state_machine.py:29-40). -/
def standardStates : List SD :=
  [ flatSD "IDLE"
      (some { next_state := .str "STARTING", prev_state := some "IDLE",
              optional := ["STOPPING", "ERROR"] }) true false,
    flatSD "STARTING"
      (some { next_state := .str "EXECUTE", optional := ["STOPPING", "ERROR"] }) false false,
    flatSD "EXECUTE"
      (some { next_state := .str "COMPLETE", optional := ["STOPPING", "ERROR"] }) false false,
    flatSD "COMPLETE" none false false,
    flatSD "STOPPING"
      (some { next_state := .str "STOPPED", prev_state := some "STOPPING",
              optional := ["ERROR"] }) false false,
    flatSD "STOPPED"
      (some { next_state := .str "IDLE", optional := ["ERROR"] }) false false,
    flatSD "ABORTING"
      (some { next_state := .str "ABORTED", prev_state := some "ABORTING",
              optional := ["ERROR"] }) false false,
    flatSD "ABORTED"
      (some { next_state := .str "RESETTING", optional := ["ERROR"] }) false false,
    flatSD "RESETTING"
      (some { next_state := .str "IDLE", prev_state := some "RESETTING",
              optional := ["ERROR"] }) false false,
    flatSD "ERROR"
      (some { next_state := .str "RESETTING", prev_state := some "IDLE",
              optional := ["ERROR"] }) false false ]

/-- The concrete catalog of claim C2 / spec §8: `IDLE(initial) → RUNNING →
DONE(final)`, `RUNNING.optional_targets = ["ERROR"]`,
`ERROR.prev_override = "IDLE"` (`ERROR` needs some resolvable forward
target for construction to pass; `IDLE` is used). -/
def claimC2Catalog : List SD :=
  [ flatSD "IDLE" (some { next_state := .str "RUNNING" }) true false,
    flatSD "RUNNING" (some { next_state := .str "DONE", optional := ["ERROR"] }) false false,
    flatSD "DONE" none false true,
    flatSD "ERROR" (some { next_state := .str "IDLE", prev_state := some "IDLE" }) false false ]

/-- A variant of the C2 catalog in which `ERROR` is entered as the forward
(`next`) target of `RUNNING`, so that its `prev_override` is actually
installed. -/
def claimC2Variant : List SD :=
  [ flatSD "IDLE" (some { next_state := .str "RUNNING" }) true false,
    flatSD "RUNNING" (some { next_state := .str "ERROR" }) false false,
    flatSD "ERROR" (some { next_state := .str "RUNNING", prev_state := some "IDLE" }) false false ]

/-- A catalog whose state `C` carries the unresolvable `prev_state` name
`"NOPE"`, while `C` itself is never any state's forward target. -/
def claimC1Cex : List SD :=
  [ flatSD "A" (some { next_state := .str "B" }) true false,
    flatSD "B" (some { next_state := .str "A" }) false false,
    flatSD "C" (some { next_state := .str "A", prev_state := some "NOPE" }) false false ]

/-- A two-state catalog whose non-final `A` has the final `B` as its next
target. -/
def claimC4CexFinal : List SD :=
  [ flatSD "A" (some { next_state := .str "B" }) true false,
    flatSD "B" none false true ]

/-- A catalog in which both `A` and `C` have `B` as forward target. -/
def claimC4CexShared : List SD :=
  [ flatSD "A" (some { next_state := .str "B" }) true false,
    flatSD "B" (some { next_state := .str "A" }) false false,
    flatSD "C" (some { next_state := .str "B" }) false false ]

/-- A catalog with a state literally named `PREVIOUS` listed as an optional
target of `B`, so that `B` gains an optional edge listening on the
`to_previous` signal itself. -/
def claimC4CexOptional : List SD :=
  [ flatSD "B" (some { next_state := .str "A", optional := ["PREVIOUS"] }) false false,
    flatSD "A" (some { next_state := .str "B" }) true false,
    flatSD "PREVIOUS" (some { next_state := .str "A" }) false false ]

/-- Decidable equality of construction results. -/
instance instDecEqExceptPyErr {α : Type} [DecidableEq α] : DecidableEq (Except PyErr α) := by
  intro x y
  cases x with
  | ok a =>
    cases y with
    | ok b =>
      cases decEq a b with
      | isTrue h => exact isTrue (by rw [h])
      | isFalse h => exact isFalse (fun hc => h (by cases hc; rfl))
    | error f => exact isFalse (fun hc => by cases hc)
  | error e =>
    cases y with
    | ok b => exact isFalse (fun hc => by cases hc)
    | error f =>
      cases decEq e f with
      | isTrue h => exact isTrue (by rw [h])
      | isFalse h => exact isFalse (fun hc => h (by cases hc; rfl))

/-- Whether a construction step succeeded. -/
def exOk {α : Type} : Except PyErr α → Bool
  | .ok _ => true
  | .error _ => false

/-- The edges added by a successful construction step (empty on error). -/
def exVal {α : Type} : Except PyErr (List α) → List α
  | .ok l => l
  | .error _ => []

/-- `parents: Union[Any, List, None]` of `StateMachineModel.__init__`: a
single observer, a list of observers, or `None` (the default).  An observer
is represented by the list of its method names. -/
inductive PyParents where
  | pynone : PyParents
  | single (methods : List String) : PyParents
  | list (parents : List (List String)) : PyParents
deriving DecidableEq, Repr

/-- Lines 111-114 of `__init__`: a non-`None` non-list argument is wrapped
into a one-element list; `None` is kept as `None`. -/
def normalizeParents : PyParents → Option (List (List String))
  | .pynone => none
  | .single o => some [o]
  | .list os => some os

/-- `StateMachineModel.__init__` (state_machine.py:102-132) as far as it
can fail: the observer loop `for parent in self._parents` at line 116
iterates `self._parents`, raising `TypeError` when it is `None` (the
default); afterwards states are created and `_add_transitions` wires the
machine.  Returns the wired transitions. -/
def smInit (parents : PyParents) (c : List SD) : Except PyErr (List Edge) :=
  match normalizeParents parents with
  | none => .error (.typeError "NoneType object is not iterable")
  | some _ => build c

/-- Spec §7 / §8: a name resolves in a scope. -/
def resolvesIn (scope : List Core) (n : String) : Bool :=
  (enumLookup scope (some n)).isSome

/-- Spec-side condition for the reverse-edge computation reached through
the forward target `tn` of `e`: `tn` must resolve, and when it denotes a
non-final state whose descriptor carries a `prev_state` different from both
`e`'s name and `tn`, that `prev_state` must also resolve. -/
def specPrevCheckOk (e : Entry) (tn : String) : Bool :=
  match enumLookup e.scope (some tn) with
  | none => false
  | some t =>
    t.final ||
      (match (t.transitions.getD { next_state := .pynone }).prev_state with
       | none => true
       | some p => p == e.core.name || p == tn || resolvesIn e.scope p)

/-- Spec-side condition on the forward (`next`) part of a transitions
descriptor: a single target must be a non-empty name that resolves (with
its reverse-edge names in order); every member of a tuple of option targets
must resolve likewise; an absent single target fails (its reverse-edge
lookup raises). -/
def specForwardOk (e : Entry) (td : TD) : Bool :=
  match td.next_state with
  | .pynone => false
  | .str s => if s == "" then false else resolvesIn e.scope s && specPrevCheckOk e s
  | .tup names => names.all (fun n => resolvesIn e.scope n && specPrevCheckOk e n)

/-- Spec-side condition on the optional (named-jump) targets: for a
non-final state every optional target must have the correspondingly named
trigger signal on the engine and must resolve; final states skip the check
entirely. -/
def specOptionalOk (e : Entry) (td : TD) : Bool :=
  e.core.final || td.optional.all (fun n => hasSignalAttr (signalFormat n) && resolvesIn e.scope n)

/-- Spec-side success condition for one registered state. -/
def specEntryOk (e : Entry) : Bool :=
  match e.core.transitions with
  | none => true
  | some td => specForwardOk e td && specOptionalOk e td

/-- Spec-side success condition for engine construction over a whole
catalog (claim C1, amended): every registered state, at every nesting
level, satisfies its per-state name-resolution and trigger-signal
conditions. -/
def specConstructionOk (c : List SD) : Bool :=
  (collect c).all specEntryOk

theorem exOk_bind {α β : Type} (x : Except PyErr α) (f : α → Except PyErr β) :
    exOk (x >>= f) =
      match x with
      | .ok a => exOk (f a)
      | .error _ => false := by
  cases x <;> rfl

@[simp] theorem exOk_pure {α : Type} (a : α) : exOk (pure a : Except PyErr α) = true := rfl

@[simp] theorem exOk_ok {α : Type} (a : α) : exOk (Except.ok a : Except PyErr α) = true := rfl

@[simp] theorem exOk_error {α : Type} (err : PyErr) :
    exOk (Except.error err : Except PyErr α) = false := rfl

theorem exOk_bind_of_ok {α β : Type} (x : Except PyErr α) (f : α → Except PyErr β)
    (h : ∀ a, exOk (f a) = true) : exOk (x >>= f) = exOk x := by
  cases x with
  | ok a => rw [show (Except.ok a >>= f) = f a from rfl, h a]; rfl
  | error err => rfl

theorem exOk_seq2 {α β γ : Type} (x : Except PyErr α) (y : Except PyErr β) (f : α → β → γ) :
    exOk (do let a ← x; let b ← y; pure (f a b)) = (exOk x && exOk y) := by
  cases x <;> cases y <;> rfl

theorem exOk_seq3 {α β γ δ : Type} (x : Except PyErr α) (y : Except PyErr β)
    (z : Except PyErr γ) (f : α → β → γ → δ) :
    exOk (do let a ← x; let b ← y; let c ← z; pure (f a b c)) =
      (exOk x && exOk y && exOk z) := by
  cases x <;> cases y <;> cases z <;> rfl

theorem exOk_nextPrevOpt (x y z : Except PyErr (List Edge)) :
    exOk (do
        let a ← x
        let b ← y
        let v ← pure (a ++ b)
        let c ← z
        pure (v ++ c)) = (exOk x && exOk y && exOk z) := by
  cases x <;> cases y <;> cases z <;> rfl

theorem target_exOk (e : Entry) (n : String) :
    exOk (targetStateNameToEnum e (some n)) = resolvesIn e.scope n := by
  unfold targetStateNameToEnum resolvesIn
  cases enumLookup e.scope (some n) <;> rfl

theorem specPrevCheckOk_empty (e : Entry) : specPrevCheckOk e "" = false := by
  simp [specPrevCheckOk, enumLookup]

theorem addNext_exOk (e : Entry) (td : TD) :
    exOk (addNextTransition e td) =
      match td.next_state with
      | .str s => (s == "") || resolvesIn e.scope s
      | _ => true := by
  unfold addNextTransition
  cases td.next_state with
  | pynone => rfl
  | tup ns => rfl
  | str s =>
    cases hs : s == "" with
    | true => simp [hs]
    | false =>
      simp only [hs, Bool.false_eq_true, if_false, Bool.false_or]
      rw [exOk_bind_of_ok, target_exOk]
      intro a
      cases hf : e.core.final <;> simp [hf]

theorem addPrev_exOk_some (e : Entry) (td : TD) (n : String) :
    exOk (addPrevTransition e td (some n)) = specPrevCheckOk e n := by
  unfold addPrevTransition
  rw [exOk_bind]
  unfold specPrevCheckOk
  cases hr : enumLookup e.scope (some n) with
  | none => simp [targetStateNameToEnum, hr]
  | some t =>
    simp only [targetStateNameToEnum, hr]
    cases hf : t.final with
    | true => simp [hf]
    | false =>
      simp only [hf, Bool.false_eq_true, if_false, Bool.false_or]
      cases hp : (t.transitions.getD { next_state := .pynone }).prev_state with
      | none => simp [hp]
      | some p =>
        simp only [hp]
        by_cases h1 : p = e.core.name
        · simp [h1]
        · by_cases h2 : p = n
          · simp [h1, h2]
          · have hb1 : (p == e.core.name) = false := by simp [h1]
            have hb2 : (p == n) = false := by simp [h2]
            simp only [hb1, hb2, Option.getD_some, bne, Bool.not_false, Bool.and_self,
              if_true, Bool.false_or]
            rw [exOk_bind_of_ok]
            · cases hq : enumLookup e.scope (some p) <;> simp [hq, resolvesIn]
            · intro a
              rfl

theorem addPrev_exOk_none (e : Entry) (td : TD) :
    exOk (addPrevTransition e td none) =
      match td.next_state with
      | .str s => specPrevCheckOk e s
      | _ => false := by
  cases hn : td.next_state with
  | str s =>
    have h : addPrevTransition e td none = addPrevTransition e td (some s) := by
      unfold addPrevTransition
      rw [hn]
    rw [h, addPrev_exOk_some]
  | pynone =>
    unfold addPrevTransition
    rw [exOk_bind, hn]
    simp [targetStateNameToEnum, enumLookup]
  | tup ns =>
    unfold addPrevTransition
    rw [exOk_bind, hn]
    simp [targetStateNameToEnum, enumLookup]

theorem addOption_exOk (e : Entry) (num : Nat) (n : String) :
    exOk (addOptionTransitions e num n) = resolvesIn e.scope n := by
  unfold addOptionTransitions
  rw [exOk_bind_of_ok, target_exOk]
  intro a
  cases hf : e.core.final <;> simp [hf]

theorem optionalLoop_exOk (e : Entry) (l : List String) :
    exOk (optionalLoop e l) =
      l.all (fun n => hasSignalAttr (signalFormat n) && resolvesIn e.scope n) := by
  induction l with
  | nil => rfl
  | cons n rest ih =>
    unfold optionalLoop
    cases hsig : hasSignalAttr (signalFormat n) with
    | false => simp [hsig]
    | true =>
      simp only [hsig, Bool.not_true, Bool.false_eq_true, if_false, List.all_cons,
        Bool.true_and]
      rw [exOk_seq2, target_exOk, ih]

theorem addOptional_exOk (e : Entry) (td : TD) :
    exOk (addOptionalTransitions e td) = specOptionalOk e td := by
  unfold addOptionalTransitions specOptionalOk
  cases hf : e.core.final with
  | true => rfl
  | false => simp [optionalLoop_exOk]

theorem tupleLoop_exOk (e : Entry) (td : TD) (num : Nat) (names : List String) :
    exOk (tupleLoop e td num names) =
      names.all (fun n => resolvesIn e.scope n && specPrevCheckOk e n) := by
  induction names generalizing num with
  | nil => rfl
  | cons n rest ih =>
    unfold tupleLoop
    rw [exOk_seq3, addOption_exOk, addPrev_exOk_some, ih]
    simp [List.all_cons]

theorem wireState_exOk (e : Entry) : exOk (wireState e) = specEntryOk e := by
  unfold wireState specEntryOk
  cases ht : e.core.transitions with
  | none => rfl
  | some td =>
    cases hn : td.next_state with
    | tup names =>
      simp only [hn]
      rw [exOk_seq2, tupleLoop_exOk, addOptional_exOk]
      simp [specForwardOk, hn]
    | str s =>
      simp only [hn]
      rw [exOk_nextPrevOpt, addNext_exOk, addPrev_exOk_none, addOptional_exOk]
      simp only [hn, specForwardOk]
      cases hs : s == "" with
      | true =>
        have hse : s = "" := by simpa using hs
        subst hse
        simp [specPrevCheckOk_empty]
      | false => simp [hs]
    | pynone =>
      simp only [hn]
      rw [exOk_nextPrevOpt, addNext_exOk, addPrev_exOk_none, addOptional_exOk]
      simp [specForwardOk, hn]

theorem buildLoop_exOk (l : List Entry) :
    exOk (buildLoop l) = l.all specEntryOk := by
  induction l with
  | nil => rfl
  | cons e rest ih =>
    unfold buildLoop
    rw [exOk_seq2, wireState_exOk, ih]
    simp [List.all_cons]

theorem build_exOk (c : List SD) : exOk (build c) = specConstructionOk c := by
  unfold build specConstructionOk
  exact buildLoop_exOk (collect c)

/-- **C1 (amended).** For every catalog and every observer list,
construction succeeds iff every registered state passes its per-state
checks: its forward (`next`) name — a single non-empty name or each member
of a tuple of option names — resolves in the state's scope; for each
resolved non-final forward target whose descriptor carries a `prev_state`
different from both the source's name and the target's name, that
`prev_state` name resolves too; and, unless the state is final, every
optional target resolves and has a matching `to_<lowercased name>` trigger
signal on the engine.  `prev_state` names of states that are never reached
as a forward target, and optional lists of final states, are not validated
at all.  Failure is deterministic and happens at construction. -/
theorem claimC1_construction_success_iff (ps : List (List String)) (c : List SD) :
    exOk (smInit (.list ps) c) = specConstructionOk c := by
  unfold smInit normalizeParents
  exact build_exOk c

/-- **C1 counterexample.** The claim states construction succeeds only if
*every* name referenced in a transition descriptor (next/prev/optional)
resolves.  In `claimC1Cex`, state `C`'s descriptor references the
`prev_state` name `"NOPE"`, which resolves to no state in the catalog, yet
construction succeeds, because `C` is never any state's forward target so
its `prev_state` is never examined. -/
theorem claimC1_claim_counterexample :
    exOk (build claimC1Cex) = true ∧
    (collect claimC1Cex).map (fun e => e.core.transitions.map TD.prev_state) =
      [some none, some none, some (some "NOPE")] ∧
    enumLookup (claimC1Cex.map SD.core) (some "NOPE") = none := by
  refine ⟨by decide, by decide, by decide⟩

/-- **C2 counterexample.** In the claim's concrete catalog (`IDLE(initial)
→ RUNNING → DONE(final)`, `RUNNING.optional_targets = ["ERROR"]`,
`ERROR.prev_override = "IDLE"`) the machine is built successfully, starts
at `IDLE`, and the trigger sequence next, error, previous ends in `ERROR`
— not in `IDLE` as the claim states — because `ERROR` is reachable only
through an optional (named-jump) edge and such targets never receive a
reverse (`to_previous`) edge. -/
theorem claimC2_claim_counterexample :
    exOk (build claimC2Catalog) = true ∧
    initialState claimC2Catalog = some "IDLE" ∧
    runEdges (exVal (build claimC2Catalog)) ["IDLE"] [trigNext, trigError, trigPrev] =
      ["ERROR"] := by
  refine ⟨by decide, by decide, by decide⟩

/-- **C2 (amended).** `prev_override` redirection applies to the reverse
edges installed for forward (`next`/option) transitions only.  In the
claim's concrete catalog no `to_previous` edge leaves `ERROR` at all (so
the sequence next, error, previous ends in `ERROR`, with the final
`previous` a no-op); in the variant catalog where `ERROR` is entered as
`RUNNING`'s forward target, the same style of sequence (next, next,
previous) lands on the override `IDLE` and never on the original source
`RUNNING`. -/
theorem claimC2_prev_override_amended :
    (exVal (build claimC2Catalog)).filter
        (fun ed => ed.src == ["ERROR"] && ed.signal == "to_previous") = [] ∧
    runEdges (exVal (build claimC2Catalog)) ["IDLE"] [trigNext, trigError, trigPrev] =
      ["ERROR"] ∧
    exOk (build claimC2Variant) = true ∧
    initialState claimC2Variant = some "IDLE" ∧
    runEdges (exVal (build claimC2Variant)) ["IDLE"] [trigNext, trigNext, trigPrev] =
      ["IDLE"] := by
  refine ⟨by decide, by decide, by decide, by decide, by decide⟩

/-- **C4 counterexample.** Three concrete failures of the claim as stated:
(a) in `claimC4CexFinal` the non-final `A` has the final `B` (which, having
no transitions descriptor, declares no `prev_override`) as next target, and
next-then-previous from `A` ends in `B`; (b) in `claimC4CexShared` both `A`
and `C` have the non-final, override-free `B` as next target, and
next-then-previous from `C` ends in `A`; (c) in `claimC4CexOptional` the
state `B` lists a state named `PREVIOUS` among its optional targets, which
installs an edge out of `B` listening on the `to_previous` signal itself,
and next-then-previous from `A` ends in `PREVIOUS`. -/
theorem claimC4_claim_counterexample :
    (exOk (build claimC4CexFinal) = true ∧
      runEdges (exVal (build claimC4CexFinal)) ["A"] [trigNext, trigPrev] = ["B"]) ∧
    (exOk (build claimC4CexShared) = true ∧
      (claimC4CexShared.map fun s => s.transitions.map TD.prev_state) =
        [some none, some none, some none] ∧
      runEdges (exVal (build claimC4CexShared)) ["C"] [trigNext, trigPrev] = ["A"]) ∧
    (exOk (build claimC4CexOptional) = true ∧
      runEdges (exVal (build claimC4CexOptional)) ["A"] [trigNext, trigPrev] =
        ["PREVIOUS"]) := by
  refine ⟨⟨by decide, by decide⟩, ⟨by decide, by decide, by decide⟩, ⟨by decide, by decide⟩⟩

/-- The loop of `current_state_tree` (state_machine.py:174-189): starting
from the current state, follow `parent` links upward, appending each
ancestor, for at most 100 iterations (`while n < 100`), stopping early at
a state with no parent.  `parentOf` abstracts the `parent` back-references
written during construction. -/
def cstLoop (parentOf : String → Option String) : Nat → String → List String → List String
  | 0, _, tree => tree
  | n + 1, x, tree =>
    match parentOf x with
    | some p => cstLoop parentOf n p (tree ++ [p])
    | none => tree

/-- `current_state_tree` (state_machine.py:174-189): the bounded upward
walk from the current state, reversed into root-to-leaf order.  The
function always returns a list; exceeding the 100-hop guard truncates the
walk, it does not raise. -/
def currentStateTree (parentOf : String → Option String) (cur : String) : List String :=
  (cstLoop parentOf 100 cur [cur]).reverse

/-- Spec-side ancestor path (spec §4.2 `current_state_tree()`): `RootPath f
x l` states that `l` is the root-to-leaf sequence of identifiers obtained
by following `parent` links upward from `x` until a parentless root. -/
inductive RootPath (f : String → Option String) : String → List String → Prop where
  | root (x : String) (hx : f x = none) : RootPath f x [x]
  | step (x p : String) (l : List String) (hp : f x = some p) (h : RootPath f p l) :
      RootPath f x (l ++ [x])

theorem rootPath_ne_nil {f : String → Option String} {x : String} {l : List String}
    (h : RootPath f x l) : l ≠ [] := by
  cases h with
  | root _ _ => simp
  | step _ _ l _ _ => simp

theorem rootPath_reverse_head {f : String → Option String} {x : String} {l : List String}
    (h : RootPath f x l) : l.reverse = x :: l.reverse.tail := by
  cases h with
  | root _ _ => rfl
  | step _ p l hp h => simp

theorem cstLoop_of_rootPath {f : String → Option String} {x : String} {l : List String}
    (h : RootPath f x l) :
    ∀ n (acc : List String), l.length ≤ n + 1 → cstLoop f n x acc = acc ++ l.reverse.tail := by
  induction h with
  | root y hy =>
    intro n acc _
    cases n with
    | zero => simp [cstLoop]
    | succ m => simp [cstLoop, hy]
  | step y p l hp h ih =>
    intro n acc hlen
    have hne : l ≠ [] := rootPath_ne_nil h
    have hpos : 1 ≤ l.length := List.length_pos.mpr hne
    have hlen2 : l.length + 1 ≤ n + 1 := by simpa using hlen
    obtain ⟨m, rfl⟩ : ∃ m, n = m + 1 := by
      cases n with
      | zero => omega
      | succ m => exact ⟨m, rfl⟩
    have hrec : cstLoop f (m + 1) y acc = cstLoop f m p (acc ++ [p]) := by
      simp [cstLoop, hp]
    rw [hrec, ih m (acc ++ [p]) (by omega)]
    have hrev : l.reverse = p :: l.reverse.tail := rootPath_reverse_head h
    have : (l ++ [y]).reverse.tail = l.reverse := by simp
    rw [this, hrev]
    simp

/-- **C7 (amended).** `current_state_tree` walks `parent` links upward for
at most 100 hops; whenever the ancestor chain of the current state reaches
a root within the guard (at most a leaf plus 100 ancestors), the result is
exactly the identifiers in root-to-leaf order.  On a malformed (cyclic or
over-deep) chain the walk is truncated after 100 hops and the truncated
list is returned; no error is raised. -/
theorem claimC7_tree_amended (f : String → Option String) (cur : String) (l : List String)
    (h : RootPath f cur l) (hlen : l.length ≤ 101) :
    currentStateTree f cur = l := by
  unfold currentStateTree
  rw [cstLoop_of_rootPath h 100 [cur] (by omega)]
  have hrev : l.reverse = cur :: l.reverse.tail := rootPath_reverse_head h
  calc ([cur] ++ l.reverse.tail).reverse
      = (cur :: l.reverse.tail).reverse := by rfl
    _ = l.reverse.reverse := by rw [← hrev]
    _ = l := by simp

/-- Witness for C7 (amended): a two-level hierarchy `TOP / SUB`; the tree
from the leaf `SUB` is `[TOP, SUB]` in root-to-leaf order. -/
theorem claimC7_tree_amended_witness :
    currentStateTree (fun x => if x == "SUB" then some "TOP" else none) "SUB" =
      ["TOP", "SUB"] :=
  claimC7_tree_amended (fun x => if x == "SUB" then some "TOP" else none) "SUB" ["TOP", "SUB"]
    (RootPath.step "SUB" "TOP" ["TOP"] rfl (RootPath.root "TOP" rfl)) (by decide)

set_option maxRecDepth 4000 in
/-- **C7 counterexample.** On a cyclic `parent` chain (`A` its own parent)
the claim says the operation fails as a fatal configuration defect rather
than returning a truncated result; the code instead returns the quietly
truncated 101-element list (the leaf plus 100 hops). -/
theorem claimC7_claim_counterexample :
    currentStateTree (fun _ => some "A") "A" = List.replicate 101 "A" := by decide

/-- `QState` signals a name-convention hook can be connected to. -/
inductive QSig where
  | entered : QSig
  | exited : QSig
  | finished : QSig
deriving DecidableEq, Repr

/-- `_format_state_substate` (state_machine.py:421-442).  The contribution
of the `prefix` parameter is dead: `fmt` is unconditionally reassigned at
lines 435-438, discarding it — reproduced faithfully. -/
def formatStateSubstate (parentName : Option String) (name : String)
    (pre : Option String) (suf : Option String) : String :=
  let _fmtDead := match pre with | some p => p ++ "_" | none => ""
  let fmt :=
    match parentName with
    | some pn => "state_" ++ pyLower pn ++ "__" ++ pyLower name
    | none => "state_" ++ pyLower name
  match suf with
  | some sf => fmt ++ "_" ++ sf
  | none => fmt

/-- The connections `_connect_events_to_parents` (state_machine.py:297-312)
makes for one observer with the given method names: each name-convention
hook that exists on the observer is connected — the `entered`, `finished`
and `exited` named hooks are all three connected to the state node's
`entered` signal (lines 298-303) — and the generic `state_entered` /
`state_finished` / `state_exited` methods are connected to `entered` /
`finished` / `exited` respectively, the latter two only for non-final
nodes (lines 305-312). -/
def connectObserverHooks (methods : List String) (parentName : Option String)
    (name : String) (isFinal : Bool) : List (String × QSig) :=
  let hookEntered := formatStateSubstate parentName name none (some "entered")
  let hookFinished := formatStateSubstate parentName name none (some "finished")
  let hookExited := formatStateSubstate parentName name none (some "exited")
  (if methods.contains hookEntered then [(hookEntered, QSig.entered)] else []) ++
  (if methods.contains hookFinished then [(hookFinished, QSig.entered)] else []) ++
  (if methods.contains hookExited then [(hookExited, QSig.entered)] else []) ++
  (if methods.contains "state_entered" then [("state_entered", QSig.entered)] else []) ++
  (if methods.contains "state_finished" && !isFinal then [("state_finished", QSig.finished)]
   else []) ++
  (if methods.contains "state_exited" && !isFinal then [("state_exited", QSig.exited)] else [])

/-- **C6.** The canonical hook names are derived as the claim says
(`state_<name>_<event>`, `state_<parent>__<name>_<event>`), but the three
name-convention hooks are *all* connected to the node's `entered` signal:
an observer implementing `state_idle_finished` or `state_idle_exited` has
it fire on entry, not on finish/exit.  Only the generic hooks are bound to
their own events. -/
theorem claimC6_named_hooks_bound_to_entered :
    formatStateSubstate none "IDLE" none (some "entered") = "state_idle_entered" ∧
    formatStateSubstate (some "EXECUTE") "IDLE" none (some "exited") =
      "state_execute__idle_exited" ∧
    connectObserverHooks ["state_idle_entered", "state_idle_finished", "state_idle_exited"]
        none "IDLE" false =
      [("state_idle_entered", QSig.entered), ("state_idle_finished", QSig.entered),
       ("state_idle_exited", QSig.entered)] ∧
    connectObserverHooks ["state_entered", "state_finished", "state_exited"] none "IDLE" false =
      [("state_entered", QSig.entered), ("state_finished", QSig.finished),
       ("state_exited", QSig.exited)] := by
  refine ⟨by decide, by decide, by decide, by decide⟩

/-- An argument passed to `__getitem__`: either a catalog `Enum` member or
a live node (both identified here by their path, but of distinct runtime
types in Python). -/
inductive SMItem where
  | enumMember (p : Path) : SMItem
  | node (p : Path) : SMItem
deriving DecidableEq, Repr

/-- `SearchDict.reverse_search` (util/functions.py:20-31) on the engine's
`_states` index: the values are live nodes (never nested dicts — all
states, including substates, are registered in the one flat dict by
`_create_and_assign_state`), so the function returns the first key whose
value equals the searched node, or `None`. -/
def reverseSearch (d : List (Path × Path)) (v : Path) : Option Path :=
  match d.find? (fun kv => kv.2 == v) with
  | some kv => some kv.1
  | none => none

/-- The engine's `_states` index for a catalog: each registered state's
`Enum` member mapped to the live node it produced (both identified by the
state's path). -/
def statesDict (c : List SD) : List (Path × Path) :=
  (collect c).map (fun e => (e.selfPath, e.selfPath))

/-- `isinstance(QState, QFinalState)` (state_machine.py:141) tests the
*class object* `QState`, not the `item` argument; a class is not an
instance of `QFinalState`, so the test is constantly false and
`__getitem__` always takes the plain dictionary-lookup branch. -/
def getitemClassCheck : Bool := false

/-- `StateMachineModel.__getitem__` (state_machine.py:134-144).  The
(dead) reverse-search branch would return the key for a node (or `None`);
the live branch indexes `_states`, whose keys are `Enum` members: a node
argument equals no key and raises `KeyError`. -/
def smGetitem (d : List (Path × Path)) (item : SMItem) : Except PyErr (Option Path) :=
  if getitemClassCheck then
    .ok (reverseSearch d (match item with | .enumMember p => p | .node p => p))
  else
    match item with
    | .enumMember p =>
      match d.find? (fun kv => kv.1 == p) with
      | some kv => .ok (some kv.2)
      | none => .error (.keyError (String.intercalate "." p))
    | .node p => .error (.keyError (String.intercalate "." p))

/-- **C8.** Reverse lookup itself works — `reverse_search` recovers the
`IDLE` identifier from the live `IDLE` node of the `StandardStates` engine
— but indexing the engine with a live node never reaches it: the
`isinstance(QState, QFinalState)` test is constantly false, so
`__getitem__` looks the node up among the `Enum` keys and raises
`KeyError` instead of returning the identifier. -/
theorem claimC8_reverse_lookup_broken :
    reverseSearch (statesDict standardStates) ["IDLE"] = some ["IDLE"] ∧
    getitemClassCheck = false ∧
    smGetitem (statesDict standardStates) (.node ["IDLE"]) = .error (.keyError "IDLE") ∧
    smGetitem (statesDict standardStates) (.enumMember ["IDLE"]) = .ok (some ["IDLE"]) := by
  refine ⟨by decide, by decide, by decide, by decide⟩

/-- The attribute names of a `StateMachineModel` instance
(state_machine.py:88-449): signals, public methods and properties,
protected fields and helpers.  Neither this class nor `QObject` has an
attribute named `machine`, `setInitialState` or `start`; those live on the
wrapped `QStateMachine` stored in `_machine`. -/
def engineAttrs : List String :=
  ["to_previous", "to_next", "to_option", "to_error", "to_stopping", "skip",
   "goto", "current_state", "previous_state", "current_state_enum",
   "previous_state_enum", "current_super_state", "previous_super_state",
   "current_state_tree", "_machine", "_states", "_parents", "_stateful_view",
   "_states_enum", "_current_state", "_previous_state",
   "_create_and_assign_state", "_create_state", "_update_link_attrs",
   "_connect_machine_finished", "_connect_events_to_parents",
   "_add_transitions", "_add_next_transition", "_add_prev_transition",
   "_add_option_transitions", "_add_optional_transitions",
   "_target_state_name_to_enum", "_signal_format", "_format_state_substate"]

def engineHasAttr (n : String) : Bool := engineAttrs.contains n

/-- `StateMachineModel.goto` (state_machine.py:191-206): `self[state]`
(which raises `KeyError` for a node argument), then `self.machine.stop()`
— but no attribute `machine` exists on the model, so every surviving call
raises `AttributeError` before anything is stopped, relocated or
restarted. -/
def smGoto (d : List (Path × Path)) (state : SMItem) : Except PyErr (Option Path) := do
  let _ ← smGetitem d state
  if engineHasAttr "machine" then
    .ok none
  else
    .error (.attributeError "machine")

/-- **C3.** `goto` never relocates the machine: for every engine index and
every argument it fails — with `AttributeError` on the nonexistent
`self.machine` when the lookup succeeds (or `KeyError` first) — instead of
performing the documented stop / set-initial / restart sequence. -/
theorem claimC3_goto_always_raises (d : List (Path × Path)) (item : SMItem) :
    exOk (smGoto d item) = false := by
  unfold smGoto
  cases h : smGetitem d item with
  | error err => rfl
  | ok v =>
    have hm : engineHasAttr "machine" = false := by decide
    show exOk (Except.ok v >>= _) = false
    rw [show (Except.ok v >>= fun _ => if engineHasAttr "machine" then
      (.ok none : Except PyErr (Option Path)) else .error (.attributeError "machine")) =
      (if engineHasAttr "machine" then (.ok none : Except PyErr (Option Path))
       else .error (.attributeError "machine")) from rfl, hm]
    rfl

/-- **C9.** With the default `parents=None` — the natural way to construct
an engine with zero observers — `__init__` raises `TypeError` at the
unguarded loop `for parent in self._parents` (line 116), even though both
downstream consumers of `_parents` explicitly guard against `None`
(state_machine.py:269, 283); an explicit empty list works and all hook
attachment is skipped. -/
theorem claimC9_zero_observers :
    smInit .pynone standardStates = .error (.typeError "NoneType object is not iterable") ∧
    exOk (smInit (.list []) standardStates) = true ∧
    exOk (smInit (.single ["state_entered"]) standardStates) = true := by
  refine ⟨by decide, by decide, by decide⟩

/-- One observable effect of `__init__` in program order. -/
inductive InitEffect where
  | setObserverAttr (idx : Nat) (attr : String) : InitEffect
  | createState (p : Path) : InitEffect
  | addTransitionsStep : InitEffect
  | connectMachineFinished : InitEffect
  | startMachine : InitEffect
deriving DecidableEq, Repr

/-- The effect trace of `__init__` (state_machine.py:102-132) for a list
of observers: the loop `for parent in self._parents: parent.statemachine =
self` (lines 116-117) writes the `statemachine` attribute on each observer
first; only then are the states created (lines 124-128), the transitions
wired, the finished signal connected and the machine started (lines
130-132).  Connecting node signals to observer methods reads observer
attributes but never writes them. -/
def initEffects (parents : List (List String)) (c : List SD) : List InitEffect :=
  (List.range parents.length).map (fun i => InitEffect.setObserverAttr i "statemachine") ++
    ((collect c).map (fun e => InitEffect.createState e.selfPath) ++
      [InitEffect.addTransitionsStep, InitEffect.connectMachineFinished,
       InitEffect.startMachine])

def InitEffect.isObserverWrite : InitEffect → Bool
  | .setObserverAttr _ _ => true
  | _ => false

/-- **C10.** During construction the only writes the engine performs on
observer objects are exactly one `statemachine`-attribute assignment per
observer, and all of them happen before any state is created: dropping the
leading per-observer writes leaves a tail that contains every state
creation and no observer write at all. -/
theorem claimC10_observer_writes (parents : List (List String)) (c : List SD) :
    (initEffects parents c).filter InitEffect.isObserverWrite =
      (List.range parents.length).map
        (fun i => InitEffect.setObserverAttr i "statemachine") ∧
    (initEffects parents c).drop parents.length =
      (collect c).map (fun e => InitEffect.createState e.selfPath) ++
        [InitEffect.addTransitionsStep, InitEffect.connectMachineFinished,
         InitEffect.startMachine] ∧
    ((initEffects parents c).drop parents.length).all
      (fun eff => !eff.isObserverWrite) = true := by
  refine ⟨?hfilter, ?hdrop, ?htail⟩
  case hfilter =>
    unfold initEffects
    rw [List.filter_append]
    have h1 : ((List.range parents.length).map
        (fun i => InitEffect.setObserverAttr i "statemachine")).filter
          InitEffect.isObserverWrite =
        (List.range parents.length).map
          (fun i => InitEffect.setObserverAttr i "statemachine") := by
      apply List.filter_eq_self.mpr
      intro a ha
      obtain ⟨i, _, rfl⟩ := List.mem_map.mp ha
      rfl
    have h2 : ((collect c).map (fun e => InitEffect.createState e.selfPath) ++
        [InitEffect.addTransitionsStep, InitEffect.connectMachineFinished,
         InitEffect.startMachine]).filter InitEffect.isObserverWrite = [] := by
      apply List.filter_eq_nil_iff.mpr
      intro a ha
      rcases List.mem_append.mp ha with hmem | hmem
      · obtain ⟨e, _, rfl⟩ := List.mem_map.mp hmem
        simp [InitEffect.isObserverWrite]
      · fin_cases hmem <;> simp [InitEffect.isObserverWrite]
    rw [h1, h2, List.append_nil]
  case hdrop =>
    unfold initEffects
    rw [List.drop_left' (by simp)]
  case htail =>
    unfold initEffects
    rw [List.drop_left' (by simp)]
    apply List.all_eq_true.mpr
    intro a ha
    rcases List.mem_append.mp ha with hmem | hmem
    · obtain ⟨e, _, rfl⟩ := List.mem_map.mp hmem
      simp [InitEffect.isObserverWrite]
    · fin_cases hmem <;> simp [InitEffect.isObserverWrite]

@[simp] theorem pyBind_ok {α β : Type} (a : α) (f : α → Except PyErr β) :
    (Except.ok a >>= f : Except PyErr β) = f a := rfl

@[simp] theorem pyBind_error {α β : Type} (err : PyErr) (f : α → Except PyErr β) :
    (Except.error err >>= f : Except PyErr β) = .error err := rfl

@[simp] theorem exVal_okList {α : Type} (l : List α) :
    exVal (Except.ok l : Except PyErr (List α)) = l := rfl

@[simp] theorem exVal_pureList {α : Type} (l : List α) :
    exVal (pure l : Except PyErr (List α)) = l := rfl

@[simp] theorem exVal_errorList {α : Type} (err : PyErr) :
    exVal (Except.error err : Except PyErr (List α)) = [] := rfl

/-- The forward target names of a transitions descriptor: the single
`next` name, or the names of the option tuple; reverse (`to_previous`)
edges out of a state are installed exactly when it is resolved from one of
these (spec §4.2.1 step 2). -/
def forwardNames (td : TD) : List String :=
  match td.next_state with
  | .pynone => []
  | .str s => [s]
  | .tup ns => ns

def entryForwardNames (e : Entry) : List String :=
  match e.core.transitions with
  | none => []
  | some td => forwardNames td

/-- The edges wired over a list of registered states, in registration
order (one block per state). -/
def wireAll : List Entry → List Edge
  | [] => []
  | e :: rest => exVal (wireState e) ++ wireAll rest

theorem wireAll_append (l1 l2 : List Entry) :
    wireAll (l1 ++ l2) = wireAll l1 ++ wireAll l2 := by
  induction l1 with
  | nil => rfl
  | cons e rest ih => simp [wireAll, ih]

theorem buildLoop_ok_eq {l : List Entry} {es : List Edge}
    (h : buildLoop l = .ok es) : es = wireAll l := by
  induction l generalizing es with
  | nil =>
    unfold buildLoop at h
    cases h
    rfl
  | cons e rest ih =>
    unfold buildLoop at h
    cases hw : wireState e with
    | error err => rw [hw] at h; simp at h
    | ok a =>
      rw [hw] at h
      cases hb : buildLoop rest with
      | error err => rw [hb] at h; simp at h
      | ok b =>
        rw [hb] at h
        simp only [pyBind_ok] at h
        cases h
        simp [wireAll, hw, ih hb]

theorem enumLookup_name {scope : List Core} {s : String} {c : Core}
    (h : enumLookup scope (some s) = some c) : c.name = s := by
  simp only [enumLookup] at h
  cases hs : s == "" with
  | true => rw [hs] at h; simp at h
  | false =>
    rw [hs] at h
    simp only [Bool.false_eq_true, if_false] at h
    have := List.find?_some h
    simpa using this

theorem enumLookup_nonempty {scope : List Core} {s : String} {c : Core}
    (h : enumLookup scope (some s) = some c) : (s == "") = false := by
  simp only [enumLookup] at h
  cases hs : s == "" with
  | true => rw [hs] at h; simp at h
  | false => rfl

theorem addPrev_none_eq_some {e : Entry} {td : TD} {s : String}
    (hn : td.next_state = .str s) :
    addPrevTransition e td none = addPrevTransition e td (some s) := by
  unfold addPrevTransition
  rw [hn]

theorem mem_addNext {e : Entry} {td : TD} {ed : Edge}
    (h : ed ∈ exVal (addNextTransition e td)) :
    ed.src = e.selfPath ∧ ed.signal = "to_next" ∧ ed.guard = none := by
  unfold addNextTransition at h
  cases hn : td.next_state with
  | pynone => simp [hn] at h
  | tup ns => simp [hn] at h
  | str s =>
    simp only [hn] at h
    cases hs : s == "" with
    | true => rw [hs] at h; simp at h
    | false =>
      rw [hs] at h
      simp only [Bool.false_eq_true, if_false] at h
      cases hr : enumLookup e.scope (some s) with
      | none => simp [targetStateNameToEnum, hr] at h
      | some t =>
        simp only [targetStateNameToEnum, hr, pyBind_ok] at h
        cases hf : e.core.final with
        | true => rw [hf] at h; simp at h
        | false =>
          rw [hf] at h
          simp only [Bool.false_eq_true, if_false, exVal_pureList] at h
          have hh : ed = Edge.mk e.selfPath "to_next" none (e.parentPath ++ [t.name]) := by
            simpa using h
          rw [hh]
          exact ⟨rfl, rfl, rfl⟩

theorem mem_addPrev_some {e : Entry} {td : TD} {n : String} {ed : Edge}
    (h : ed ∈ exVal (addPrevTransition e td (some n))) :
    ed.signal = "to_previous" ∧ ed.guard = none ∧
    ∃ t, enumLookup e.scope (some n) = some t ∧ t.final = false ∧
      ed.src = e.parentPath ++ [t.name] := by
  unfold addPrevTransition at h
  cases hr : enumLookup e.scope (some n) with
  | none => simp [targetStateNameToEnum, hr] at h
  | some t =>
    simp only [targetStateNameToEnum, hr, pyBind_ok] at h
    cases hf : t.final with
    | true => rw [hf] at h; simp at h
    | false =>
      rw [hf] at h
      simp only [Bool.false_eq_true, if_false] at h
      cases hp : (t.transitions.getD { next_state := .pynone }).prev_state with
      | none =>
        simp only [hp, exVal_pureList] at h
        have hh : ed = Edge.mk (e.parentPath ++ [t.name]) "to_previous" none e.selfPath := by
          simpa using h
        rw [hh]
        exact ⟨rfl, rfl, t, rfl, hf, rfl⟩
      | some p =>
        simp only [hp] at h
        cases hcond : (p != e.core.name && p != (some n).getD "") with
        | false => rw [hcond] at h; simp at h
        | true =>
          rw [hcond] at h
          simp only [if_true] at h
          cases hq : enumLookup e.scope (some p) with
          | none => simp [targetStateNameToEnum, hq] at h
          | some pv =>
            simp only [targetStateNameToEnum, hq, pyBind_ok, exVal_pureList] at h
            have hh : ed = Edge.mk (e.parentPath ++ [t.name]) "to_previous" none
                (e.parentPath ++ [pv.name]) := by simpa using h
            rw [hh]
            exact ⟨rfl, rfl, t, rfl, hf, rfl⟩

theorem mem_addPrev {e : Entry} {td : TD} {tnArg : Option String} {ed : Edge}
    (h : ed ∈ exVal (addPrevTransition e td tnArg)) :
    ed.signal = "to_previous" ∧ ed.guard = none ∧
    ∃ tn t, (tnArg = some tn ∨ (tnArg = none ∧ td.next_state = .str tn)) ∧
      enumLookup e.scope (some tn) = some t ∧ t.final = false ∧
      ed.src = e.parentPath ++ [t.name] := by
  cases tnArg with
  | none =>
    cases hn : td.next_state with
    | pynone =>
      unfold addPrevTransition at h
      rw [hn] at h
      simp [targetStateNameToEnum, enumLookup] at h
    | tup ns =>
      unfold addPrevTransition at h
      rw [hn] at h
      simp [targetStateNameToEnum, enumLookup] at h
    | str s =>
      rw [addPrev_none_eq_some hn] at h
      obtain ⟨h1, h2, t, hres, hfin, hsrc⟩ := mem_addPrev_some h
      exact ⟨h1, h2, s, t, Or.inr ⟨rfl, rfl⟩, hres, hfin, hsrc⟩
  | some n =>
    obtain ⟨h1, h2, t, hres, hfin, hsrc⟩ := mem_addPrev_some h
    exact ⟨h1, h2, n, t, Or.inl rfl, hres, hfin, hsrc⟩

theorem mem_addOption {e : Entry} {num : Nat} {n : String} {ed : Edge}
    (h : ed ∈ exVal (addOptionTransitions e num n)) :
    ed.src = e.selfPath ∧ (ed.signal = "to_next" ∨ ed.signal = "to_option") := by
  unfold addOptionTransitions at h
  cases hr : enumLookup e.scope (some n) with
  | none => simp [targetStateNameToEnum, hr] at h
  | some t =>
    simp only [targetStateNameToEnum, hr, pyBind_ok] at h
    cases hf : e.core.final with
    | true => rw [hf] at h; simp at h
    | false =>
      rw [hf] at h
      simp only [Bool.false_eq_true, if_false] at h
      cases hz : num == 0 with
      | true =>
        rw [hz] at h
        have hh : ed = Edge.mk e.selfPath "to_next" none (e.parentPath ++ [t.name]) ∨
            ed = Edge.mk e.selfPath "to_option" (some (num, n, e.parentPath ++ [t.name]))
              (e.parentPath ++ [t.name]) := by simpa using h
        rcases hh with hh | hh
        · rw [hh]; exact ⟨rfl, Or.inl rfl⟩
        · rw [hh]; exact ⟨rfl, Or.inr rfl⟩
      | false =>
        rw [hz] at h
        have hh : ed = Edge.mk e.selfPath "to_option"
            (some (num, n, e.parentPath ++ [t.name])) (e.parentPath ++ [t.name]) := by
          simpa using h
        rw [hh]
        exact ⟨rfl, Or.inr rfl⟩

theorem mem_optionalLoop {e : Entry} {ns : List String} {ed : Edge}
    (h : ed ∈ exVal (optionalLoop e ns)) :
    ed.src = e.selfPath ∧ ∃ n, n ∈ ns ∧ ed.signal = signalFormat n := by
  induction ns with
  | nil => simp [optionalLoop] at h
  | cons n rest ih =>
    unfold optionalLoop at h
    cases hsig : hasSignalAttr (signalFormat n) with
    | false => rw [hsig] at h; simp at h
    | true =>
      rw [hsig] at h
      simp only [Bool.not_true, Bool.false_eq_true, if_false] at h
      cases hr : enumLookup e.scope (some n) with
      | none => simp [targetStateNameToEnum, hr] at h
      | some t =>
        simp only [targetStateNameToEnum, hr, pyBind_ok] at h
        cases hrest : optionalLoop e rest with
        | error err => rw [hrest] at h; simp at h
        | ok evs =>
          rw [hrest] at h
          simp only [pyBind_ok, exVal_okList] at h
          rcases List.mem_cons.mp h with hh | hh
          · rw [hh]
            exact ⟨rfl, n, List.mem_cons_self n rest, rfl⟩
          · have := ih (by rw [hrest]; simpa using hh)
            obtain ⟨h1, m, hm, h2⟩ := this
            exact ⟨h1, m, List.mem_cons_of_mem n hm, h2⟩

theorem mem_tupleLoop {e : Entry} {td : TD} {ed : Edge} :
    ∀ {num : Nat} {ns : List String}, ed ∈ exVal (tupleLoop e td num ns) →
    (ed.src = e.selfPath ∧ (ed.signal = "to_next" ∨ ed.signal = "to_option")) ∨
    (ed.signal = "to_previous" ∧ ed.guard = none ∧
      ∃ tn t, tn ∈ ns ∧ enumLookup e.scope (some tn) = some t ∧ t.final = false ∧
        ed.src = e.parentPath ++ [t.name]) := by
  intro num ns
  induction ns generalizing num with
  | nil => intro h; simp [tupleLoop] at h
  | cons n rest ih =>
    intro h
    unfold tupleLoop at h
    cases ha : addOptionTransitions e num n with
    | error err => rw [ha] at h; simp at h
    | ok la =>
      rw [ha] at h
      cases hb : addPrevTransition e td (some n) with
      | error err => rw [hb] at h; simp at h
      | ok lb =>
        rw [hb] at h
        cases hc : tupleLoop e td (num + 1) rest with
        | error err => rw [hc] at h; simp at h
        | ok lc =>
          rw [hc] at h
          simp only [pyBind_ok, exVal_okList] at h
          rcases List.mem_append.mp h with hh | hh
          · rcases List.mem_append.mp hh with hha | hhb
            · exact Or.inl (mem_addOption (by rw [ha]; simpa using hha))
            · have := mem_addPrev_some (by rw [hb]; simpa using hhb)
              obtain ⟨h1, h2, t, hres, hfin, hsrc⟩ := this
              exact Or.inr ⟨h1, h2, n, t, List.mem_cons_self n rest, hres, hfin, hsrc⟩
          · have := ih (by rw [hc]; simpa using hh)
            rcases this with hcase | ⟨h1, h2, tn, t, hmem, hres, hfin, hsrc⟩
            · exact Or.inl hcase
            · exact Or.inr ⟨h1, h2, tn, t, List.mem_cons_of_mem n hmem, hres, hfin, hsrc⟩

theorem bool_and_split {a b : Bool} (h : (a && b) = true) : a = true ∧ b = true := by
  cases a <;> cases b <;> simp_all

theorem mem_wireState {e : Entry} {ed : Edge} (h : ed ∈ exVal (wireState e)) :
    (ed.src = e.selfPath ∧ (ed.signal = "to_next" ∨ ed.signal = "to_option")) ∨
    (ed.signal = "to_previous" ∧ ed.guard = none ∧
      ∃ tn t, tn ∈ entryForwardNames e ∧ enumLookup e.scope (some tn) = some t ∧
        t.final = false ∧ ed.src = e.parentPath ++ [t.name]) ∨
    (ed.src = e.selfPath ∧ ∃ td2 nm, e.core.transitions = some td2 ∧ nm ∈ td2.optional ∧
      ed.signal = signalFormat nm) := by
  unfold wireState at h
  cases ht : e.core.transitions with
  | none => rw [ht] at h; simp at h
  | some td =>
    simp only [ht] at h
    have hopt : ∀ {lo : List Edge}, addOptionalTransitions e td = .ok lo → ed ∈ lo →
        (ed.src = e.selfPath ∧ ∃ td2 nm, (some td : Option TD) = some td2 ∧ nm ∈ td2.optional ∧
          ed.signal = signalFormat nm) := by
      intro lo ho hmem
      refine ?_
      unfold addOptionalTransitions at ho
      cases hf : e.core.final with
      | true =>
        rw [hf] at ho
        simp only [if_true] at ho
        cases ho
        simp at hmem
      | false =>
        rw [hf] at ho
        simp only [Bool.false_eq_true, if_false] at ho
        obtain ⟨h1, nm, hnm, h2⟩ := mem_optionalLoop (by rw [ho]; simpa using hmem)
        exact ⟨h1, td, nm, rfl, hnm, h2⟩
    cases hn : td.next_state with
    | tup ns =>
      simp only [hn] at h
      cases hx : tupleLoop e td 0 ns with
      | error err => rw [hx] at h; simp at h
      | ok lx =>
        rw [hx] at h
        cases ho : addOptionalTransitions e td with
        | error err => rw [ho] at h; simp at h
        | ok lo =>
          rw [ho] at h
          simp only [pyBind_ok, exVal_pureList] at h
          rcases List.mem_append.mp h with hh | hh
          · have := mem_tupleLoop (by rw [hx]; simpa using hh)
            rcases this with hcase | ⟨h1, h2, tn, t, hmem, hres, hfin, hsrc⟩
            · exact Or.inl hcase
            · refine Or.inr (Or.inl ⟨h1, h2, tn, t, ?_, hres, hfin, hsrc⟩)
              simp [entryForwardNames, ht, forwardNames, hn, hmem]
          · exact Or.inr (Or.inr (hopt ho hh))
    | pynone =>
      have ha : addNextTransition e td = .ok [] := by
        unfold addNextTransition
        rw [hn]
      have hb : addPrevTransition e td none = .error (.keyError "None") := by
        unfold addPrevTransition
        rw [hn]
        simp [targetStateNameToEnum, enumLookup]
      simp only [hn, ha, hb, pyBind_ok, pyBind_error] at h
      simp at h
    | str sname =>
      simp only [hn] at h
      cases ha : addNextTransition e td with
      | error err => rw [ha] at h; simp at h
      | ok la =>
        rw [ha] at h
        cases hb : addPrevTransition e td none with
        | error err => rw [hb] at h; simp at h
        | ok lb =>
          rw [hb] at h
          cases ho : addOptionalTransitions e td with
          | error err => rw [ho] at h; simp at h
          | ok lo =>
            rw [ho] at h
            simp only [pyBind_ok, exVal_pureList] at h
            rcases List.mem_append.mp h with hh | hh
            · rcases List.mem_append.mp hh with hha | hhb
              · obtain ⟨h1, h2, _⟩ := mem_addNext (by rw [ha]; simpa using hha)
                exact Or.inl ⟨h1, Or.inl h2⟩
              · have hmemb : ed ∈ exVal (addPrevTransition e td none) := by
                  rw [hb]; simpa using hhb
                have := mem_addPrev hmemb
                obtain ⟨h1, h2, tn, t, hcase, hres, hfin, hsrc⟩ := this
                refine Or.inr (Or.inl ⟨h1, h2, tn, t, ?_, hres, hfin, hsrc⟩)
                have htn : tn = sname := by
                  rcases hcase with hc | hc
                  · exact absurd hc (by simp)
                  · rw [hn] at hc
                    injection hc.2 with hx
                    exact hx.symm
                rw [htn]
                simp [entryForwardNames, ht, forwardNames, hn]
            · exact Or.inr (Or.inr (hopt ho hh))

theorem mem_wireAll {l : List Entry} {ed : Edge} (h : ed ∈ wireAll l) :
    ∃ e, e ∈ l ∧ ed ∈ exVal (wireState e) := by
  induction l with
  | nil => simp [wireAll] at h
  | cons e rest ih =>
    unfold wireAll at h
    rcases List.mem_append.mp h with hh | hh
    · exact ⟨e, List.mem_cons_self e rest, hh⟩
    · obtain ⟨f, hf, hmem⟩ := ih hh
      exact ⟨f, List.mem_cons_of_mem e hf, hmem⟩

theorem wireState_shape_single {e : Entry} {td : TD} {sname : String} {t : Core}
    {ol : List Edge}
    (ht : e.core.transitions = some td) (hn : td.next_state = .str sname)
    (hfin : e.core.final = false)
    (hr : enumLookup e.scope (some sname) = some t) (hTfin : t.final = false)
    (hTprev : (t.transitions.getD { next_state := .pynone }).prev_state = none)
    (hopt : addOptionalTransitions e td = .ok ol) :
    wireState e = .ok
      (Edge.mk e.selfPath "to_next" none (e.parentPath ++ [t.name]) ::
       Edge.mk (e.parentPath ++ [t.name]) "to_previous" none e.selfPath :: ol) := by
  have hs : (sname == "") = false := enumLookup_nonempty hr
  have hA : addNextTransition e td =
      .ok [Edge.mk e.selfPath "to_next" none (e.parentPath ++ [t.name])] := by
    unfold addNextTransition
    rw [hn]
    simp [hs, targetStateNameToEnum, hr, hfin]
  have hB : addPrevTransition e td none =
      .ok [Edge.mk (e.parentPath ++ [t.name]) "to_previous" none e.selfPath] := by
    rw [addPrev_none_eq_some hn]
    unfold addPrevTransition
    simp only [targetStateNameToEnum, hr, pyBind_ok, hTfin, Bool.false_eq_true, if_false, hTprev]
    rfl
  unfold wireState
  rw [ht]
  simp only [hn, hA, hB, hopt, pyBind_ok]
  rfl

/-- **C4 (amended).** For every flat catalog successfully built, every
non-final state `S` whose single next-target `T` is non-final, declares no
`prev_state` override, and is the forward target of no state other than
`S`, and in which no state's optional list names a state whose derived
trigger signal is `to_previous` itself, triggering `next` then `previous`
from `S` returns the machine to `S`.  (The extra conditions are forced by
the counterexample: a final target retains no reverse edge, a shared
target reverses to the first forward source, and an optional target named
`PREVIOUS` shadows the reverse trigger.) -/
theorem claimC4_next_prev_roundtrip
    (l : List Entry) (es : List Edge) (S : Entry) (td : TD) (tName : String) (T : Core)
    (hbuild : buildLoop l = .ok es)
    (hflat : ∀ e, e ∈ l → e.parentPath = [])
    (hnames : (l.map (fun e => e.core.name)).Nodup)
    (hS : S ∈ l)
    (hSfin : S.core.final = false)
    (htd : S.core.transitions = some td)
    (hnext : td.next_state = .str tName)
    (hres : enumLookup S.scope (some tName) = some T)
    (hTfin : T.final = false)
    (hTprev : (T.transitions.getD { next_state := .pynone }).prev_state = none)
    (huniq : ∀ e, e ∈ l → e ≠ S → tName ∉ entryForwardNames e)
    (hnoprev : ∀ e, e ∈ l → ∀ td2, e.core.transitions = some td2 →
      ∀ nm, nm ∈ td2.optional → signalFormat nm ≠ "to_previous") :
    runEdges es [S.core.name] [trigNext, trigPrev] = [S.core.name] := by
  have hokS : exOk (wireState S) = true := by
    have h1 : exOk (buildLoop l) = true := by rw [hbuild]; rfl
    rw [buildLoop_exOk] at h1
    rw [wireState_exOk]
    exact List.all_eq_true.mp h1 S hS
  have hoptOk : exOk (addOptionalTransitions S td) = true := by
    rw [addOptional_exOk]
    have h2 : specEntryOk S = true := by rw [← wireState_exOk]; exact hokS
    unfold specEntryOk at h2
    rw [htd] at h2
    exact (bool_and_split h2).2
  obtain ⟨ol, hol⟩ : ∃ ol, addOptionalTransitions S td = .ok ol := by
    cases hx : addOptionalTransitions S td with
    | ok o => exact ⟨o, rfl⟩
    | error err => rw [hx] at hoptOk; simp [exOk] at hoptOk
  have hws := wireState_shape_single htd hnext hSfin hres hTfin hTprev hol
  have hSflat : S.parentPath = [] := hflat S hS
  have hSpath : S.selfPath = [S.core.name] := by simp [Entry.selfPath, hSflat]
  have hTname : T.name = tName := enumLookup_name hres
  have hTpath : S.parentPath ++ [T.name] = [tName] := by simp [hSflat, hTname]
  obtain ⟨l1, l2, hsplit⟩ := List.append_of_mem hS
  have hmem1 : ∀ e, e ∈ l1 → e ∈ l := by
    intro e he
    rw [hsplit]
    exact List.mem_append_left _ he
  have hmem2 : ∀ e, e ∈ l2 → e ∈ l := by
    intro e he
    rw [hsplit]
    exact List.mem_append_right _ (List.mem_cons_of_mem S he)
  have hnodupnames : S.core.name ∉ l1.map (fun e => e.core.name) ++
      l2.map (fun e => e.core.name) := by
    have h1 := hnames
    rw [hsplit, List.map_append, List.map_cons] at h1
    exact (List.nodup_cons.mp (List.nodup_middle.mp h1)).1
  have hname1 : ∀ e, e ∈ l1 → e.core.name ≠ S.core.name := by
    intro e he heq
    exact hnodupnames (List.mem_append_left _ (heq ▸ List.mem_map_of_mem _ he))
  have hes : es = wireAll l1 ++
      (Edge.mk S.selfPath "to_next" none (S.parentPath ++ [T.name]) ::
       Edge.mk (S.parentPath ++ [T.name]) "to_previous" none S.selfPath :: ol) ++
      wireAll l2 := by
    have h1 := buildLoop_ok_eq hbuild
    rw [hsplit] at h1
    rw [h1, wireAll_append]
    show wireAll l1 ++ (exVal (wireState S) ++ wireAll l2) = _
    rw [hws]
    simp [exVal]
  have hprednone1 : ∀ ed, ed ∈ wireAll l1 →
      ¬(ed.src == [S.core.name] && edgeMatches ed trigNext) = true := by
    intro ed hmem hpred
    obtain ⟨e, hel, hmemw⟩ := mem_wireAll hmem
    have hsrceq : ed.src = [S.core.name] := eq_of_beq (bool_and_split hpred).1
    have hmatch := (bool_and_split hpred).2
    unfold edgeMatches trigNext at hmatch
    have hsigeq : ed.signal = "to_next" := eq_of_beq (bool_and_split hmatch).1
    have heflat : e.selfPath = [e.core.name] := by simp [Entry.selfPath, hflat e (hmem1 e hel)]
    rcases mem_wireState hmemw with ⟨hsp, _⟩ | ⟨hprev, _⟩ | ⟨hsp, _⟩
    · rw [heflat] at hsp
      rw [hsp] at hsrceq
      exact hname1 e hel (by injection hsrceq)
    · rw [hsigeq] at hprev
      exact absurd hprev (by decide)
    · rw [heflat] at hsp
      rw [hsp] at hsrceq
      exact hname1 e hel (by injection hsrceq)
  have hprednone2 : ∀ ed, ed ∈ wireAll l1 →
      ¬(ed.src == [tName] && edgeMatches ed trigPrev) = true := by
    intro ed hmem hpred
    obtain ⟨e, hel, hmemw⟩ := mem_wireAll hmem
    have hsrceq : ed.src = [tName] := eq_of_beq (bool_and_split hpred).1
    have hmatch := (bool_and_split hpred).2
    unfold edgeMatches trigPrev at hmatch
    have hsigeq : ed.signal = "to_previous" := eq_of_beq (bool_and_split hmatch).1
    rcases mem_wireState hmemw with ⟨hsp, hsig⟩ | ⟨hprev, hguard, tn, t, htnmem, hresx, htfinx, hsrcx⟩ |
        ⟨hsp, td2, nm, htd2, hnm, hsigfmt⟩
    · rcases hsig with hsig | hsig <;> rw [hsigeq] at hsig <;> exact absurd hsig (by decide)
    · have htn : tn = tName := by
        rw [hflat e (hmem1 e hel), enumLookup_name hresx] at hsrcx
        rw [hsrcx] at hsrceq
        injection hsrceq
      have hneS : e ≠ S := by
        intro heq
        exact hname1 e hel (by rw [heq])
      exact huniq e (hmem1 e hel) hneS (htn ▸ htnmem)
    · rw [hsigeq] at hsigfmt
      exact hnoprev e (hmem1 e hel) td2 htd2 nm hnm hsigfmt.symm
  have hstep1 : stepEdges es [S.core.name] trigNext = [tName] := by
    unfold stepEdges
    rw [hes]
    rw [List.append_assoc, List.find?_append]
    have h1 : (wireAll l1).find?
        (fun ed => ed.src == [S.core.name] && edgeMatches ed trigNext) = none := by
      rw [List.find?_eq_none]
      exact hprednone1
    rw [h1]
    have h2 : ((Edge.mk S.selfPath "to_next" none (S.parentPath ++ [T.name]) ::
        Edge.mk (S.parentPath ++ [T.name]) "to_previous" none S.selfPath :: ol) ++
        wireAll l2).find?
          (fun ed => ed.src == [S.core.name] && edgeMatches ed trigNext) =
        some (Edge.mk S.selfPath "to_next" none (S.parentPath ++ [T.name])) := by
      rw [List.cons_append, List.find?_cons_of_pos]
      simp [hSpath, edgeMatches, trigNext]
    rw [h2]
    simp [hTpath]
  have hstep2 : stepEdges es [tName] trigPrev = [S.core.name] := by
    unfold stepEdges
    rw [hes]
    rw [List.append_assoc, List.find?_append]
    have h1 : (wireAll l1).find?
        (fun ed => ed.src == [tName] && edgeMatches ed trigPrev) = none := by
      rw [List.find?_eq_none]
      exact hprednone2
    rw [h1]
    have h2 : ((Edge.mk S.selfPath "to_next" none (S.parentPath ++ [T.name]) ::
        Edge.mk (S.parentPath ++ [T.name]) "to_previous" none S.selfPath :: ol) ++
        wireAll l2).find?
          (fun ed => ed.src == [tName] && edgeMatches ed trigPrev) =
        some (Edge.mk (S.parentPath ++ [T.name]) "to_previous" none S.selfPath) := by
      rw [List.cons_append, List.find?_cons_of_neg, List.cons_append,
        List.find?_cons_of_pos]
      · simp [hTpath, edgeMatches, trigPrev]
      · simp [edgeMatches, trigPrev]
    rw [h2]
    simp [hSpath]
  show stepEdges es (stepEdges es [S.core.name] trigNext) trigPrev = [S.core.name]
  rw [hstep1, hstep2]

/-- A two-state catalog for exercising the next/previous roundtrip. -/
def roundtripCat : List SD :=
  [flatSD "A" (some { next_state := .str "B" }) true false,
   flatSD "B" (some { next_state := .str "A" }) false false]

/-- Witness for C4 (amended): in `roundtripCat` (`A(initial) → B → A`, no
overrides), next then previous from `A` returns the machine to `A`. -/
theorem claimC4_next_prev_roundtrip_witness :
    runEdges (exVal (build roundtripCat)) ["A"] [trigNext, trigPrev] = ["A"] :=
  claimC4_next_prev_roundtrip
    (collect roundtripCat) (exVal (build roundtripCat))
    { parentPath := [], core := ⟨"A", some { next_state := .str "B" }, false⟩,
      scope := [⟨"A", some { next_state := .str "B" }, false⟩,
                ⟨"B", some { next_state := .str "A" }, false⟩] }
    { next_state := .str "B" } "B"
    ⟨"B", some { next_state := .str "A" }, false⟩
    (by decide) (by decide) (by decide) (by decide) (by decide) (by decide)
    (by decide) (by decide) (by decide) (by decide) (by decide) (by decide)

theorem filter_eq_nil_of_signals {lx : List Edge} {sig : String}
    (h : ∀ ed ∈ lx, ed.signal ≠ sig) :
    lx.filter (fun ed => ed.signal == sig) = [] := by
  apply List.filter_eq_nil_iff.mpr
  intro ed hmem
  simp [h ed hmem]

theorem addOption_ok_eq {e : Entry} {num : Nat} {n : String} {la : List Edge}
    (h : addOptionTransitions e num n = .ok la) (hfin : e.core.final = false) :
    enumLookup e.scope (some n) ≠ none ∧
    la = (if num == 0 then [Edge.mk e.selfPath "to_next" none (e.parentPath ++ [n])]
          else []) ++
      [Edge.mk e.selfPath "to_option" (some (num, n, e.parentPath ++ [n]))
        (e.parentPath ++ [n])] := by
  unfold addOptionTransitions at h
  cases hr : enumLookup e.scope (some n) with
  | none => simp [targetStateNameToEnum, hr] at h
  | some t =>
    simp only [targetStateNameToEnum, hr, pyBind_ok, hfin, Bool.false_eq_true, if_false] at h
    have hname := enumLookup_name hr
    refine ⟨by simp, ?_⟩
    cases h
    rw [hname]

/-- The option edges the spec expects for a tuple of option targets
starting at position `num`: one `to_option` edge per name, guarded by the
triple of its position, its name and the resolved sibling target
(spec §4.2.1 step 1). -/
def specOptionEdges (e : Entry) : Nat → List String → List Edge
  | _, [] => []
  | num, n :: rest =>
    Edge.mk e.selfPath "to_option" (some (num, n, e.parentPath ++ [n]))
        (e.parentPath ++ [n]) ::
      specOptionEdges e (num + 1) rest

theorem tupleLoop_filters {e : Entry} {td : TD}
    (hfin : e.core.final = false) :
    ∀ {num : Nat} {names : List String} {lx : List Edge},
      tupleLoop e td num names = .ok lx →
      lx.filter (fun ed => ed.signal == "to_option") = specOptionEdges e num names ∧
      lx.filter (fun ed => ed.signal == "to_next") =
        (if num == 0 then
          (names.take 1).map (fun n => Edge.mk e.selfPath "to_next" none (e.parentPath ++ [n]))
         else []) := by
  intro num names
  induction names generalizing num with
  | nil =>
    intro lx h
    unfold tupleLoop at h
    cases h
    exact ⟨rfl, by cases num == 0 <;> rfl⟩
  | cons n rest ih =>
    intro lx h
    unfold tupleLoop at h
    cases ha : addOptionTransitions e num n with
    | error err => rw [ha] at h; simp at h
    | ok la =>
      rw [ha] at h
      cases hb : addPrevTransition e td (some n) with
      | error err => rw [hb] at h; simp at h
      | ok lb =>
        rw [hb] at h
        cases hc : tupleLoop e td (num + 1) rest with
        | error err => rw [hc] at h; simp at h
        | ok lc =>
          rw [hc] at h
          simp only [pyBind_ok] at h
          have hlx : lx = la ++ lb ++ lc := by cases h; rfl
          obtain ⟨-, hla⟩ := addOption_ok_eq ha hfin
          have hlbprev : ∀ ed ∈ lb, ed.signal = "to_previous" := by
            intro ed hmem
            exact (mem_addPrev_some (by rw [hb]; simpa using hmem)).1
          obtain ⟨ihopt, ihnext⟩ := ih hc
          have hlbopt : lb.filter (fun ed => ed.signal == "to_option") = [] :=
            filter_eq_nil_of_signals (fun ed hmem => by rw [hlbprev ed hmem]; decide)
          have hlbnext : lb.filter (fun ed => ed.signal == "to_next") = [] :=
            filter_eq_nil_of_signals (fun ed hmem => by rw [hlbprev ed hmem]; decide)
          constructor
          · rw [hlx, List.filter_append, List.filter_append, hlbopt, hla, ihopt,
              List.filter_append]
            cases hz : num == 0 with
            | true => simp [specOptionEdges, List.filter]
            | false => simp [specOptionEdges, List.filter]
          · rw [hlx, List.filter_append, List.filter_append, hlbnext, hla, ihnext,
              List.filter_append]
            have hrest : (if num + 1 == 0 then
                (rest.take 1).map
                  (fun m => Edge.mk e.selfPath "to_next" none (e.parentPath ++ [m]))
              else []) = [] := by simp
            rw [hrest]
            cases hz : num == 0 with
            | true => simp [List.filter]
            | false => simp [List.filter]

set_option maxHeartbeats 800000 in
/-- **C5 (amended).** For every non-final state whose `next_state` is a
tuple of names, the successfully wired edges contain, for each name at
position `i`, an option edge on the generic `to_option` signal guarded by
the stored triple `(i, name, target)` — the guard fires exactly when the
payload equals the index `i`, the name, or the target identifier
(membership in the triple), and in particular *not* when the payload is
the pair `(i, name)` — and additionally, only for `i = 0`, an
unconditional `to_next` edge to the same (first) target. -/
theorem claimC5_option_wiring (e : Entry) (td : TD) (names : List String)
    (num : Nat) (lx : List Edge)
    (hfin : e.core.final = false)
    (hok : tupleLoop e td num names = .ok lx) :
    lx.filter (fun ed => ed.signal == "to_option") = specOptionEdges e num names ∧
    lx.filter (fun ed => ed.signal == "to_next") =
      (if num == 0 then
        (names.take 1).map (fun n => Edge.mk e.selfPath "to_next" none (e.parentPath ++ [n]))
       else []) ∧
    (∀ (i : Nat) (n : String) (t : Path) (p : PyVal),
      edgeMatches (Edge.mk e.selfPath "to_option" (some (i, n, t)) t) (trigOption p) =
        pyIn p (i, n, t)) ∧
    (∀ (i : Nat) (n : String) (t : Path),
      pyIn (PyVal.tup [PyVal.int i, PyVal.str n]) (i, n, t) = false ∧
      pyIn (PyVal.int i) (i, n, t) = true ∧
      pyIn (PyVal.str n) (i, n, t) = true ∧
      pyIn (PyVal.enumRef t) (i, n, t) = true) := by
  obtain ⟨h1, h2⟩ := tupleLoop_filters hfin hok
  refine ⟨h1, h2, ?_, ?_⟩
  · intro i n t p
    rfl
  · intro i n t
    refine ⟨?_, ?_, ?_, ?_⟩
    · simp [pyIn, pyEq]
    · simp [pyIn, pyEq]
    · simp [pyIn, pyEq]
    · simp [pyIn, pyEq, pyEqList]

/-- **C5 counterexample.** The claim says the option edge fires on the
generic option event exactly when the payload matches the pair `(i,
name)`.  `OptionTransition.eventTest` instead tests membership of the
payload in the stored triple: the pair payload `(0, "A")` does *not* fire
the edge for position 0 / name `"A"`, while the bare index `0` (not a
pair) does. -/
theorem claimC5_claim_counterexample :
    pyIn (PyVal.tup [PyVal.int 0, PyVal.str "A"]) (0, "A", ["A"]) = false ∧
    pyIn (PyVal.int 0) (0, "A", ["A"]) = true ∧
    edgeMatches (Edge.mk ["S"] "to_option" (some (0, "A", ["A"])) ["A"])
      (trigOption (PyVal.tup [PyVal.int 0, PyVal.str "A"])) = false ∧
    edgeMatches (Edge.mk ["S"] "to_option" (some (0, "A", ["A"])) ["A"])
      (trigOption (PyVal.int 0)) = true := by
  refine ⟨by decide, by decide, by decide, by decide⟩

/-- A registered state whose descriptor declares two option targets. -/
def optionEntry : Entry :=
  { parentPath := [],
    core := ⟨"S", some { next_state := .tup ["A", "B"] }, false⟩,
    scope := [⟨"S", some { next_state := .tup ["A", "B"] }, false⟩,
              ⟨"A", some { next_state := .str "S" }, false⟩,
              ⟨"B", some { next_state := .str "S" }, false⟩] }

/-- Witness for C5 (amended), at the concrete two-option state `S` with
targets `A` (position 0) and `B` (position 1). -/
theorem claimC5_option_wiring_witness :
    (exVal (tupleLoop optionEntry { next_state := .tup ["A", "B"] } 0 ["A", "B"])).filter
        (fun ed => ed.signal == "to_option") =
      specOptionEdges optionEntry 0 ["A", "B"] ∧
    (exVal (tupleLoop optionEntry { next_state := .tup ["A", "B"] } 0 ["A", "B"])).filter
        (fun ed => ed.signal == "to_next") =
      (if (0 : Nat) == 0 then
        ((["A", "B"].take 1).map
          (fun n => Edge.mk optionEntry.selfPath "to_next" none (optionEntry.parentPath ++ [n])))
       else []) ∧
    (∀ (i : Nat) (n : String) (t : Path) (p : PyVal),
      edgeMatches (Edge.mk optionEntry.selfPath "to_option" (some (i, n, t)) t)
          (trigOption p) = pyIn p (i, n, t)) ∧
    (∀ (i : Nat) (n : String) (t : Path),
      pyIn (PyVal.tup [PyVal.int i, PyVal.str n]) (i, n, t) = false ∧
      pyIn (PyVal.int i) (i, n, t) = true ∧
      pyIn (PyVal.str n) (i, n, t) = true ∧
      pyIn (PyVal.enumRef t) (i, n, t) = true) :=
  claimC5_option_wiring optionEntry { next_state := .tup ["A", "B"] } ["A", "B"] 0
    (exVal (tupleLoop optionEntry { next_state := .tup ["A", "B"] } 0 ["A", "B"]))
    (by decide) (by decide)

end StateMachine
